import Mathlib

/-!
Verification of the CookingAssistant conversation orchestrator, timer
scheduler and marker parser.

The development shallowly embeds the Python source:

* `src/utils/response_parser.py` — the marker parser.  Python strings are
  modelled as `List Char`; the two compiled regular expressions
  `TIMER_PATTERN` and `STEP_UPDATE_PATTERN` are modelled by hand-rolled
  matchers (`timerMatchAt`, `stepMatchAt`) that follow the regex engine's
  leftmost scan and greedy character-class semantics, restricted to ASCII
  whitespace.  `finditer` is the fuel-driven scan `findTimersAux`;
  `search` is `stepSearchAux`.
* `src/timers/timer_manager.py` — the timer scheduler.  Each
  `rx.interval(1).pipe(take(n))` subscription is a record counting its
  elapsed ticks; `stepSecond` advances every live subscription by one
  second (one `on_next`, plus `on_completed` when the final tick fires),
  mirroring the callbacks' mutations of the global `active_timers` dict
  and the events they publish.  Emitted `TIMER_EXPIRED` events are logged
  together with the second in which they fire.
* `src/pipeline/orchestrator.py` — the state updaters
  (`add_assistant_msg_and_update_step_updater`, the `TIMER_EXPIRED`
  branch of `process_event`) and `build_prompt_from_state`; a Python
  `IndexError` is modelled by `Option`.
-/

/-! ## Marker parser: character classes and helpers -/

/-- ASCII fragment of Python's regex class `\s` (space, tab, LF, VT, FF, CR). -/
def isPySpace (c : Char) : Bool :=
  c == ' ' || c == Char.ofNat 9 || c == Char.ofNat 10 ||
  c == Char.ofNat 11 || c == Char.ofNat 12 || c == Char.ofNat 13

/-- Python's regex class `\d`, restricted to ASCII digits. -/
def isPyDigit (c : Char) : Bool :=
  decide (48 ≤ c.toNat ∧ c.toNat ≤ 57)

/-- Python's `int()` on a run of ASCII digits. -/
def digitsVal (ds : List Char) : Nat :=
  ds.foldl (fun n c => 10 * n + (c.toNat - 48)) 0

/-- The literal prefix of `TIMER_PATTERN`, i.e. the regex text before the
whitespace and capture groups. -/
def timerLit : List Char :=
  '[' :: 'T' :: 'I' :: 'M' :: 'E' :: 'R' :: ':' :: []

/-- A match record for `TIMER_PATTERN`: start/stop offsets into the original
string (Python `match.start()`/`match.end()`), the parsed duration
(group 1 through `int`) and the timer id (group 2). -/
structure TMatch where
  mstart : Nat
  mstop : Nat
  dur : Nat
  tid : List Char
deriving DecidableEq, Repr

/-- Attempt of `TIMER_PATTERN` = `\[TIMER:\s*(\d+)\s+([^\]]+)\]` anchored at
the head of `s`.  Returns `(length of the whole match, duration, id)`.
Greedy semantics: `\s*` and `(\d+)` are maximal (no backtracking is possible
because digits and whitespace are disjoint); between `\s+` and the greedy
`([^\]]+)` the engine backtracks one character exactly when everything up to
the closing bracket is whitespace, leaving the final whitespace character as
the id. -/
def timerMatchAt (s : List Char) : Option (Nat × Nat × List Char) :=
  if s.take 7 = timerLit then
    let r1 := s.drop 7
    let ws := r1.takeWhile isPySpace
    let r2 := r1.drop ws.length
    let ds := r2.takeWhile isPyDigit
    let r3 := r2.drop ds.length
    let gap := r3.takeWhile (fun c => !(c == ']'))
    let r4 := r3.drop gap.length
    if ds.length = 0 then none
    else if r4.take 1 = [']'] then
      if gap.length = 0 then none
      else if isPySpace (gap.headD ' ') then
        let w := gap.takeWhile isPySpace
        if w.length = gap.length then
          if 2 ≤ gap.length then
            some (7 + ws.length + ds.length + gap.length + 1, digitsVal ds,
              [gap.getLastD ' '])
          else none
        else
          some (7 + ws.length + ds.length + gap.length + 1, digitsVal ds,
            gap.drop w.length)
      else none
    else none
  else none

/-- `TIMER_PATTERN.finditer`: scan left to right from offset `pos`, emitting
non-overlapping matches; on failure advance one character.  `fuel` bounds the
number of scan steps; one character is consumed per step, so `s.length` fuel
is always enough. -/
def findTimersAux : Nat → List Char → Nat → List TMatch
  | 0, _, _ => []
  | fuel + 1, s, pos =>
    match s with
    | [] => []
    | _ :: rest =>
      match timerMatchAt s with
      | some (len, d, i) =>
        ⟨pos, pos + len, d, i⟩ :: findTimersAux fuel (s.drop len) (pos + len)
      | none => findTimersAux fuel rest (pos + 1)

/-- `list(TIMER_PATTERN.finditer(response_text))` in
`parse_and_trigger_timers`. -/
def findTimers (s : List Char) : List TMatch :=
  findTimersAux s.length s 0

/-- The body of the `for match in match_list` loop of
`parse_and_trigger_timers` (lines 43–67): a marker with duration `<= 0` is
skipped (`continue`) before any text is removed; otherwise the timer command
is issued (modelled by consing it onto the output list, in call order) and
the marker is cut out of `processed_text` at offset-adjusted indices, with
`offset` incremented by the marker's length. -/
def timerLoop : List TMatch → List Char → Nat → List Char × List (List Char × Nat)
  | [], t, _ => (t, [])
  | m :: ms, t, off =>
    if m.dur = 0 then timerLoop ms t off
    else
      let t2 := t.take (m.mstart - off) ++ t.drop (m.mstop - off)
      let r := timerLoop ms t2 (off + (m.mstop - m.mstart))
      (r.1, (m.tid, m.dur) :: r.2)

/-- `parse_and_trigger_timers`: returns the processed text and the list of
`set_timer_func(timer_id, duration, …)` calls it makes, in order. -/
def parse_and_trigger_timers (s : List Char) : List Char × List (List Char × Nat) :=
  timerLoop (findTimers s) s 0

/-- Specification-side removal: every match's substring deleted from the
original text, rightmost first, so that each deletion leaves the offsets of
the matches still to be deleted unchanged (the matches are disjoint and
sorted by position). -/
def splice (a b : Nat) (t : List Char) : List Char :=
  t.take a ++ t.drop b

/-- The original text with every listed marker substring removed. -/
def stripMatches (ms : List TMatch) (s : List Char) : List Char :=
  ms.foldr (fun m t => splice m.mstart m.mstop t) s

/-! ## Step-update marker parser -/

/-- The literal prefix of `STEP_UPDATE_PATTERN`. -/
def stepLit : List Char :=
  '[' :: 'S' :: 'T' :: 'E' :: 'P' :: '_' :: 'U' :: 'P' :: 'D' :: 'A' :: 'T' ::
  'E' :: ':' :: []

/-- Attempt of `STEP_UPDATE_PATTERN` = `\[STEP_UPDATE:\s*(\d+)\s*\]` anchored
at the head of `s`; returns `(length of the whole match, parsed value)`. -/
def stepMatchAt (s : List Char) : Option (Nat × Nat) :=
  if s.take 13 = stepLit then
    let r1 := s.drop 13
    let ws := r1.takeWhile isPySpace
    let r2 := r1.drop ws.length
    let ds := r2.takeWhile isPyDigit
    let r3 := r2.drop ds.length
    let ws2 := r3.takeWhile isPySpace
    let r4 := r3.drop ws2.length
    if ds.length = 0 then none
    else if r4.take 1 = [']'] then
      some (13 + ws.length + ds.length + ws2.length + 1, digitsVal ds)
    else none
  else none

/-- `STEP_UPDATE_PATTERN.search`: the leftmost match, as
`(start offset, match length, parsed value)`. -/
def stepSearchAux : Nat → List Char → Nat → Option (Nat × Nat × Nat)
  | 0, _, _ => none
  | fuel + 1, s, pos =>
    match s with
    | [] => none
    | _ :: rest =>
      match stepMatchAt s with
      | some (len, v) => some (pos, len, v)
      | none => stepSearchAux fuel rest (pos + 1)

/-- `STEP_UPDATE_PATTERN.search(response_text)`. -/
def stepSearch (s : List Char) : Option (Nat × Nat × Nat) :=
  stepSearchAux s.length s 0

/-- `parse_and_trigger_step_update`: on a match the marker text is always
removed (`text[:match.start()] + text[match.end():]`), and the step-update
event is emitted only when the parsed value is positive (`step_number <= 0`
is dropped with a warning).  The emitted event is modelled as the `Option`
component. -/
def parse_and_trigger_step_update (s : List Char) : List Char × Option Nat :=
  match stepSearch s with
  | none => (s, none)
  | some (pos, len, v) =>
    (s.take pos ++ s.drop (pos + len), if v = 0 then none else some v)

/-- A well-formed step marker as emitted by the model: the literal, one
space, a run of digits, and the closing bracket. -/
def stepMarker (ds : List Char) : List Char :=
  stepLit ++ ' ' :: (ds ++ [']'])

/-! ## Timer scheduler model (`timer_manager.py`) -/

/-- One live `rx.interval(1).pipe(ops.take(total))` subscription created by
`set_timer`: its captured `timer_id`, its captured `actual_duration`
(`total`) and the number of `on_next` callbacks already fired. -/
structure TimerSub where
  tid : String
  total : Nat
  ticks : Nat
deriving DecidableEq, Repr

/-- The scheduler's world: the global `active_timers` dict (insertion
ordered), the live subscriptions in creation order, the `TIMER_EXPIRED`
events published so far (tagged with the second in which they fired), and
the elapsed whole seconds. -/
structure TimerState where
  active : List (String × Nat)
  subs : List TimerSub
  events : List (Nat × String)
  now : Nat
deriving DecidableEq, Repr

def initTimerState : TimerState := ⟨[], [], [], 0⟩

/-- Python dict assignment `m[k] = v`: overwrite in place if the key exists,
else append. -/
def dictSet (m : List (String × Nat)) (k : String) (v : Nat) : List (String × Nat) :=
  if m.any (fun p => p.1 == k) then
    m.map (fun p => if p.1 == k then (p.1, v) else p)
  else m ++ [(k, v)]

/-- Python `dict.pop(k, None)` / `del m[k]`: drop the entry for `k` when
present. -/
def dictDrop (m : List (String × Nat)) (k : String) : List (String × Nat) :=
  m.eraseP (fun p => p.1 == k)

/-- `MAX_TIMER_DURATION_TEST` from `timer_manager.py`. -/
def MAX_TIMER_DURATION_TEST : Nat := 10

/-- `set_timer(timer_id, duration, …)`: in test mode a duration above the
cap is reduced to the cap before anything else; a non-positive actual
duration is ignored; otherwise `active_timers[timer_id]` is initialised and
a fresh interval subscription is created.  An already-running subscription
for the same id is NOT disposed (the source only prints "Replacing"). -/
def set_timer (is_test : Bool) (st : TimerState) (timer_id : String)
    (duration : Nat) : TimerState :=
  let actual :=
    if is_test = true ∧ MAX_TIMER_DURATION_TEST < duration then
      MAX_TIMER_DURATION_TEST
    else duration
  if actual = 0 then st
  else
    { st with
      active := dictSet st.active timer_id actual,
      subs := st.subs ++ [⟨timer_id, actual, 0⟩] }

/-- One subscription's callbacks for one second: `on_next(tick)` updates
`active_timers[timer_id] = actual_duration - 1 - tick`; when this was the
final emission of `take(actual_duration)`, `on_completed` pops the id from
`active_timers` and publishes the `TIMER_EXPIRED` event; otherwise the
subscription stays live with one more tick elapsed. -/
def fireSub (now1 : Nat) (acc : TimerState) (sub : TimerSub) : TimerState :=
  let a1 := dictSet acc.active sub.tid (sub.total - 1 - sub.ticks)
  if sub.ticks + 1 = sub.total then
    { acc with
      active := dictDrop a1 sub.tid,
      events := acc.events ++ [(now1, sub.tid)] }
  else
    { acc with
      active := a1,
      subs := acc.subs ++ [{ sub with ticks := sub.ticks + 1 }] }

/-- Advance the world by one second: every live subscription fires once, in
creation order. -/
def stepSecond (st : TimerState) : TimerState :=
  (st.subs).foldl (fireSub (st.now + 1)) { st with subs := [], now := st.now + 1 }

/-- Run the scheduler for `k` seconds. -/
def runSeconds : Nat → TimerState → TimerState
  | 0, st => st
  | k + 1, st => runSeconds k (stepSecond st)

/-- `display_timers`: the entries rendered on the status line — every
`active_timers` entry whose remaining time is positive. -/
def display_timers (active : List (String × Nat)) : List (String × Nat) :=
  active.filter (fun p => decide (0 < p.2))

/-! ## Conversation state and orchestrator handlers (`orchestrator.py`) -/

/-- The structured recipe produced by the schema-constrained model call. -/
structure Recipe where
  recipe_name : String
  ingredients : List String
  instructions : List String
deriving DecidableEq, Repr

/-- One entry of the conversation message log. -/
structure Msg where
  role : String
  text : String
deriving DecidableEq, Repr

/-- The conversation state held by the `BehaviorSubject` in
`state_subject.py`. -/
structure ConvState where
  recipe : Option Recipe
  current_step : Nat
  messages : List Msg
  timers : List (String × Nat)
deriving DecidableEq, Repr

/-- A single quote character, used in the expiry system message. -/
def squote : String := (Char.ofNat 39).toString

/-- The system message text `f"Timer '{timer_id}' expired."`. -/
def expiredText (timer_id : String) : String :=
  "Timer " ++ squote ++ timer_id ++ squote ++ " expired."

/-- The `TIMER_EXPIRED` branch of `process_event` (lines 100–115): append a
system message noting the expiry and delete the id from the state's `timers`
dict when present; nothing else is touched and no model call is made. -/
def timerExpiredUpdater (timer_id : String) (st : ConvState) : ConvState :=
  { st with
    messages := st.messages ++ [⟨"system", expiredText timer_id⟩],
    timers :=
      if st.timers.any (fun p => p.1 == timer_id) then
        dictDrop st.timers timer_id
      else st.timers }

/-- `add_assistant_msg_and_update_step_updater` (lines 173–188): append the
cleaned reply as an assistant message, and when the parsed commands carry a
step update, overwrite `current_step` with it — there is no bounds check. -/
def add_assistant_msg_and_update_step_updater (cleaned : String)
    (step_update : Option Nat) (st : ConvState) : ConvState :=
  { st with
    messages := st.messages ++ [⟨"assistant", cleaned⟩],
    current_step := step_update.getD st.current_step }

/-- The spec's §3 invariant: once a recipe is loaded, `current_step` indexes
into its instruction list. -/
def stepInvariant (st : ConvState) : Prop :=
  match st.recipe with
  | none => True
  | some r => st.current_step < r.instructions.length

/-- A context line such as `"\n[Current Instruction: …]"`; `none` models the
`IndexError` Python would raise on an out-of-range list access. -/
def instrLine (label : String) (insts : List String) (i : Nat) : Option String :=
  (insts.get? i).map (fun ins => "\n[" ++ label ++ ": " ++ ins ++ "]")

/-- The `recipe_context` accumulation of `build_prompt_from_state`
(lines 29–37): the current-instruction line is guarded by
`0 <= idx < len`, the previous-instruction line only by
`idx > 0 and len > 1` (so the `instructions[idx-1]` access itself can be out
of range), the next-instruction line by `idx < len - 1`. -/
def recipeCtx (idx : Nat) (insts : List String) : Option String :=
  (if idx < insts.length then instrLine "Current Instruction" insts idx
   else some "").bind fun a =>
  (if 0 < idx ∧ 1 < insts.length then
     instrLine "Previous Instruction" insts (idx - 1)
   else some "").bind fun b =>
  (if idx < insts.length - 1 then instrLine "Next Instruction" insts (idx + 1)
   else some "").map fun c =>
  a ++ b ++ c

/-- `build_prompt_from_state` (lines 13–40): message history, then the
recipe context, then the current-step info line.  `none` models an uncaught
`IndexError`. -/
def build_prompt_from_state (st : ConvState) : Option String :=
  (match st.recipe with
   | none => some ""
   | some r => recipeCtx st.current_step r.instructions).map fun ctx =>
    String.intercalate "\n"
        (st.messages.map fun m : Msg => m.role ++ ": " ++ m.text) ++
      ctx ++ "\n[Current Step Index: " ++ Nat.repr st.current_step ++ "]"

/-- The region in which every instruction access of
`build_prompt_from_state` is in range: no recipe, a recipe with at most one
instruction, or `current_step` at most the instruction count. -/
def promptSafe (st : ConvState) : Prop :=
  match st.recipe with
  | none => True
  | some r =>
    st.current_step ≤ r.instructions.length ∨ r.instructions.length ≤ 1

/-! ## Small helper lemmas -/

/-- `stepInvariant` is decidable (used to evaluate it at concrete states). -/
instance (st : ConvState) : Decidable (stepInvariant st) := by
  unfold stepInvariant
  cases hr : st.recipe with
  | none => exact inferInstanceAs (Decidable True)
  | some r => exact inferInstanceAs (Decidable (_ < _))

theorem timerLoop_all_zero :
    ∀ (ms : List TMatch) (t : List Char) (off : Nat),
      (∀ m ∈ ms, m.dur = 0) → timerLoop ms t off = (t, []) := by
  intro ms
  induction ms with
  | nil => intro t off _; rfl
  | cons m tl ih =>
    intro t off h
    have hm : m.dur = 0 := h m (List.mem_cons_self m tl)
    simp only [timerLoop, hm, if_pos]
    exact ih t off (fun m' hm' => h m' (List.mem_cons_of_mem m hm'))

theorem recipeCtx_isSome (idx : Nat) (insts : List String)
    (h : idx ≤ insts.length ∨ insts.length ≤ 1) :
    (recipeCtx idx insts).isSome = true := by
  have ha : ∃ a, (if idx < insts.length then
      instrLine "Current Instruction" insts idx else some "") = some a := by
    split
    · next hlt =>
      unfold instrLine
      rw [List.get?_eq_get hlt]
      exact ⟨_, rfl⟩
    · exact ⟨"", rfl⟩
  have hb : ∃ b, (if 0 < idx ∧ 1 < insts.length then
      instrLine "Previous Instruction" insts (idx - 1) else some "") = some b := by
    split
    · next hc =>
      have hlt : idx - 1 < insts.length := by omega
      unfold instrLine
      rw [List.get?_eq_get hlt]
      exact ⟨_, rfl⟩
    · exact ⟨"", rfl⟩
  have hc : ∃ c, (if idx < insts.length - 1 then
      instrLine "Next Instruction" insts (idx + 1) else some "") = some c := by
    split
    · next hcc =>
      have hlt : idx + 1 < insts.length := by omega
      unfold instrLine
      rw [List.get?_eq_get hlt]
      exact ⟨_, rfl⟩
    · exact ⟨"", rfl⟩
  obtain ⟨a, ha⟩ := ha
  obtain ⟨b, hb⟩ := hb
  obtain ⟨c, hc⟩ := hc
  unfold recipeCtx
  rw [ha, hb, hc]
  rfl

/-! ## Claim theorems -/

/-- C1: the claim says that starting a timer for id `x` with duration 5 and
then, before it completes, starting a new timer for `x` with duration 8
supersedes the old countdown and yields exactly one expiry event, after 8
seconds and never after 5.  The code does not dispose the first interval
subscription, so the model publishes TWO `TIMER_EXPIRED` events for `x`:
one after 5 seconds and a second one after 8 seconds — contradicting the
claim on both counts. -/
theorem c1_two_expiries :
    (runSeconds 8 (set_timer false (set_timer false initTimerState "x" 5)
      "x" 8)).events = [(5, "x"), (8, "x")] ∧
    (runSeconds 5 (set_timer false (set_timer false initTimerState "x" 5)
      "x" 8)).events = [(5, "x")] := by
  decide

/-- C7: in bounded/test mode with the cap of 10 seconds, a requested
duration above the cap (any `d > 10`, e.g. 600) is capped before the handle
is created: throughout the countdown the display shows the capped remaining
time (never the requested one), no expiry occurs before 10 seconds, and
exactly one expiry event for the timer is published after 10 seconds. -/
theorem c7_cap (d k : Nat) (hd : 10 < d) (hk : k < 10) :
    display_timers (runSeconds k (set_timer true initTimerState "t" d)).active
        = [("t", 10 - k)] ∧
    (runSeconds k (set_timer true initTimerState "t" d)).events = [] ∧
    (runSeconds 10 (set_timer true initTimerState "t" d)).events = [(10, "t")] ∧
    (runSeconds 10 (set_timer true initTimerState "t" d)).active = [] := by
  have hs : set_timer true initTimerState "t" d = ⟨[("t", 10)], [⟨"t", 10, 0⟩], [], 0⟩ := by
    simp [set_timer, MAX_TIMER_DURATION_TEST, initTimerState, dictSet, hd]
  rw [hs]
  revert hk
  revert k
  decide

/-- C7 witness: the capped behaviour at the spec's concrete 600-second
request, checked at the third second of the countdown. -/
theorem c7_cap_witness :
    display_timers (runSeconds 3 (set_timer true initTimerState "t" 600)).active
        = [("t", 7)] ∧
    (runSeconds 3 (set_timer true initTimerState "t" 600)).events = [] ∧
    (runSeconds 10 (set_timer true initTimerState "t" 600)).events = [(10, "t")] ∧
    (runSeconds 10 (set_timer true initTimerState "t" 600)).active = [] :=
  c7_cap 600 3 (by decide) (by decide)

/-- C10: handling a `TIMER_EXPIRED` event changes only the message log
(appending the one system message) and the timers map (dropping the expired
id when present); the recipe and the current step are untouched. -/
theorem c10_timer_expired_frame (st : ConvState) (tid : String) :
    (timerExpiredUpdater tid st).recipe = st.recipe ∧
    (timerExpiredUpdater tid st).current_step = st.current_step ∧
    (timerExpiredUpdater tid st).messages
        = st.messages ++ [⟨"system", expiredText tid⟩] ∧
    (timerExpiredUpdater tid st).timers = dictDrop st.timers tid := by
  refine ⟨rfl, rfl, rfl, ?_⟩
  simp only [timerExpiredUpdater]
  split
  · rfl
  · next h =>
    unfold dictDrop
    rw [List.eraseP_of_forall_not]
    intro a ha hc
    exact h (List.any_eq_true.mpr ⟨a, ha, hc⟩)

/-- C8 counterexample: with a loaded recipe of two instructions and
`current_step = 0`, a parsed step update of 5 is written to `current_step`
unchanged, leaving the state outside the invariant
`0 <= current_step < len(instructions)` — nothing is clamped. -/
theorem c8_no_clamp_counterexample :
    (add_assistant_msg_and_update_step_updater "ok" (some 5)
        ⟨some ⟨"Pasta", ["noodles"], ["boil", "drain"]⟩, 0, [], []⟩).current_step = 5 ∧
    ¬ stepInvariant (add_assistant_msg_and_update_step_updater "ok" (some 5)
        ⟨some ⟨"Pasta", ["noodles"], ["boil", "drain"]⟩, 0, [], []⟩) := by
  decide

/-- C8 amended: an extracted step update replaces `current_step` with the
parsed value unconditionally — there is no clamping — so whenever the value
is at least the instruction count of the loaded recipe, the resulting state
violates the invariant `current_step < len(instructions)`. -/
theorem c8_step_update_unclamped (st : ConvState) (cl : String) (i : Nat)
    (r : Recipe) (hr : st.recipe = some r) (hi : r.instructions.length ≤ i) :
    (add_assistant_msg_and_update_step_updater cl (some i) st).current_step = i ∧
    ¬ stepInvariant (add_assistant_msg_and_update_step_updater cl (some i) st) := by
  refine ⟨rfl, ?_⟩
  intro h
  unfold stepInvariant at h
  have hrec : (add_assistant_msg_and_update_step_updater cl (some i) st).recipe
      = some r := hr
  rw [hrec] at h
  have hcur : (add_assistant_msg_and_update_step_updater cl (some i) st).current_step
      = i := rfl
  rw [hcur] at h
  omega

/-- C8 witness: the amended statement at a concrete state. -/
theorem c8_step_update_unclamped_witness :
    (add_assistant_msg_and_update_step_updater "ok" (some 9)
        ⟨some ⟨"Pasta", ["noodles"], ["boil", "drain"]⟩, 1, [], []⟩).current_step = 9 ∧
    ¬ stepInvariant (add_assistant_msg_and_update_step_updater "ok" (some 9)
        ⟨some ⟨"Pasta", ["noodles"], ["boil", "drain"]⟩, 1, [], []⟩) :=
  c8_step_update_unclamped _ "ok" 9 ⟨"Pasta", ["noodles"], ["boil", "drain"]⟩
    rfl (by decide)

/-- C9 counterexample: prompt construction is not total — with a loaded
recipe of two instructions and `current_step = 3`, the previous-instruction
guard `idx > 0 and len > 1` passes but `instructions[idx-1]` is out of
range, so building the prompt fails instead of omitting the line. -/
theorem c9_prompt_counterexample :
    build_prompt_from_state ⟨some ⟨"P", ["n"], ["a", "b"]⟩, 3, [], []⟩ = none := by
  decide

/-- C9 amended: prompt construction succeeds whenever no recipe is loaded,
the loaded recipe has at most one instruction, or `current_step` does not
exceed the instruction count; outside that region (a recipe with at least
two instructions and `current_step >= len + 1`) the under-guarded
previous-instruction access makes it fail. -/
theorem c9_prompt_total_on_safe_region (st : ConvState) (h : promptSafe st) :
    (build_prompt_from_state st).isSome = true := by
  unfold build_prompt_from_state
  cases hr : st.recipe with
  | none => rfl
  | some r =>
    unfold promptSafe at h
    rw [hr] at h
    rw [Option.isSome_map']
    exact recipeCtx_isSome st.current_step r.instructions h

/-- C9 witness: the amended statement at the boundary state
`current_step = len(instructions)`, where prompt construction succeeds. -/
theorem c9_prompt_total_witness :
    (build_prompt_from_state
        ⟨some ⟨"P", ["n"], ["a", "b"]⟩, 2, [⟨"user", "hi"⟩], []⟩).isSome = true :=
  c9_prompt_total_on_safe_region _ (Or.inl (by decide))

/-- C5 counterexample: on a reply with two step markers the parser emits the
FIRST occurrence (2), not the last (3), and strips only the first marker —
the second survives in the returned text. -/
theorem c5_counterexample :
    parse_and_trigger_step_update ("a[STEP_UPDATE: 2]b[STEP_UPDATE: 3]c".toList)
        = ("ab[STEP_UPDATE: 3]c".toList, some 2) ∧
    parse_and_trigger_step_update ("a[STEP_UPDATE: 2]b[STEP_UPDATE: 3]c".toList)
        ≠ ("abc".toList, some 3) := by
  decide

/-- C6 counterexample: a step marker carrying the value 0 is stripped but
emits NO step command (the code drops `step_number <= 0`; its grammar is
1-indexed, not zero-based). -/
theorem c6_counterexample :
    parse_and_trigger_step_update ("[STEP_UPDATE: 0]".toList) = ([], none) ∧
    (parse_and_trigger_step_update ("[STEP_UPDATE: 0]".toList)).2 ≠ some 0 := by
  decide

/-- C4 counterexample: a timer marker with duration 0 is matched but the
`continue` fires before the removal, so its text is NOT removed and no
command is emitted; an unparsable duration (`[TIMER: abc foo]`) never
matches the pattern, so that text is not removed either.  The claim's
round-trip (text with only the malformed marker parses to the text with the
marker removed) fails. -/
theorem c4_malformed_counterexample :
    (parse_and_trigger_timers ("[TIMER: 0 foo]".toList)).1
        = "[TIMER: 0 foo]".toList ∧
    (parse_and_trigger_timers ("[TIMER: 0 foo]".toList)).2 = [] ∧
    (parse_and_trigger_timers ("[TIMER: 0 foo]".toList)).1 ≠ [] ∧
    (parse_and_trigger_timers ("Cook [TIMER: abc foo] now".toList)).1
        = "Cook [TIMER: abc foo] now".toList := by
  decide

/-- C4 amended: a marker with non-positive duration (the digits-only grammar
admits exactly the value 0) produces no timer command AND its text is left
in the reply untouched; an unparsable duration does not match the pattern at
all, so it is likewise neither extracted nor removed.  A reply all of whose
pattern matches carry duration 0 is returned completely unchanged, with an
empty command list. -/
theorem c4_nonpositive_not_removed (s : List Char)
    (h : ∀ m ∈ findTimers s, m.dur = 0) :
    parse_and_trigger_timers s = (s, []) := by
  unfold parse_and_trigger_timers
  exact timerLoop_all_zero (findTimers s) s 0 h

/-- C4 witness: the amended statement on a reply holding one zero-duration
marker. -/
theorem c4_nonpositive_witness :
    (∀ m ∈ findTimers ("wait [TIMER: 0 foo] ok".toList), m.dur = 0) ∧
    parse_and_trigger_timers ("wait [TIMER: 0 foo] ok".toList)
        = ("wait [TIMER: 0 foo] ok".toList, []) :=
  ⟨by decide, c4_nonpositive_not_removed _ (by decide)⟩

/-! ## C3: the marker-removal loop equals removal of every match -/

theorem tw_len_le (p : Char → Bool) : ∀ l : List Char, (l.takeWhile p).length ≤ l.length := by
  intro l
  induction l with
  | nil => simp [List.takeWhile]
  | cons c t ih =>
    simp only [List.takeWhile]
    cases p c
    · simp
    · simpa using ih

theorem timer_len_le_aux (s r3 : List Char) (A B : Nat)
    (h1 : List.take 7 s = timerLit)
    (hr3 : r3.length = s.length - 7 - A - B)
    (htk : List.take 1
        (List.drop (List.takeWhile (fun c => !c == ']') r3).length r3) = [']']) :
    7 + A + B + (List.takeWhile (fun c => !c == ']') r3).length + 1 ≤ s.length := by
  have hC := tw_len_le (fun c => !c == ']') r3
  have htkl := congrArg List.length htk
  simp only [List.length_take, List.length_drop, List.length_cons,
    List.length_nil] at htkl
  have h7 : 7 ≤ s.length := by
    have h1l := congrArg List.length h1
    simp [timerLit, List.length_take] at h1l
    omega
  omega

/-- Any match of `TIMER_PATTERN` is nonempty and lies inside the scanned
string. -/
theorem timerMatchAt_len {s : List Char} {len d : Nat} {i : List Char}
    (h : timerMatchAt s = some (len, d, i)) : 1 ≤ len ∧ len ≤ s.length := by
  unfold timerMatchAt at h
  split at h
  · next h1 =>
    simp only at h
    split at h
    · exact absurd h (by simp)
    · next hds =>
      split at h
      · next htk =>
        split at h
        · exact absurd h (by simp)
        · split at h
          · split at h
            · split at h
              · next =>
                simp only [Option.some.injEq, Prod.mk.injEq] at h
                obtain ⟨hlen, -, -⟩ := h
                subst hlen
                refine ⟨by omega, ?_⟩
                exact timer_len_le_aux s _ _ _ h1
                  (by simp only [List.length_drop]) htk
              · exact absurd h (by simp)
            · simp only [Option.some.injEq, Prod.mk.injEq] at h
              obtain ⟨hlen, -, -⟩ := h
              subst hlen
              refine ⟨by omega, ?_⟩
              exact timer_len_le_aux s _ _ _ h1
                (by simp only [List.length_drop]) htk
          · exact absurd h (by simp)
      · exact absurd h (by simp)
  · exact absurd h (by simp)

/-- The matches of a scan are in increasing position order, nonempty, above
the lower bound `lo` and bounded by `L`. -/
def ChainOk : Nat → Nat → List TMatch → Prop
  | _, _, [] => True
  | lo, L, m :: ms =>
    lo ≤ m.mstart ∧ m.mstart < m.mstop ∧ m.mstop ≤ L ∧ ChainOk m.mstop L ms

theorem chainOk_mono {lo lo' L : Nat} {ms : List TMatch}
    (hlo : lo ≤ lo') (h : ChainOk lo' L ms) : ChainOk lo L ms := by
  cases ms with
  | nil => trivial
  | cons m tl =>
    obtain ⟨h1, h2, h3, h4⟩ := h
    exact ⟨le_trans hlo h1, h2, h3, h4⟩

theorem chainOk_findTimersAux :
    ∀ (fuel : Nat) (s : List Char) (pos L : Nat), pos + s.length ≤ L →
      ChainOk pos L (findTimersAux fuel s pos) := by
  intro fuel
  induction fuel with
  | zero => intro s pos L _; trivial
  | succ fuel ih =>
    intro s pos L hL
    cases s with
    | nil => trivial
    | cons c rest =>
      simp only [findTimersAux]
      cases hm : timerMatchAt (c :: rest) with
      | none =>
        exact chainOk_mono (Nat.le_succ pos)
          (ih rest (pos + 1) L (by simp at hL; omega))
      | some r =>
        obtain ⟨len, d, i⟩ := r
        obtain ⟨hlen1, hlen2⟩ := timerMatchAt_len hm
        simp only [List.length_cons] at hL hlen2
        refine ⟨le_refl pos, by dsimp only; omega, ?_, ?_⟩
        · dsimp only
          omega
        · dsimp only
          exact ih ((c :: rest).drop len) (pos + len) L
            (by simp only [List.length_drop, List.length_cons]; omega)

/-- Lower bound on the length left by removing the (offset-shifted) chain of
matches: everything below position `e` is untouched. -/
theorem foldr_splice_len_ge :
    ∀ (ms : List TMatch) (t : List Char) (off e L : Nat),
      ChainOk e L ms → e ≤ L → t.length + off = L →
      e - off ≤
        (ms.foldr (fun m u => splice (m.mstart - off) (m.mstop - off) u) t).length := by
  intro ms
  induction ms with
  | nil =>
    intro t off e L _ heL hlen
    simp only [List.foldr_nil]
    omega
  | cons m tl ih =>
    intro t off e L hchain heL hlen
    obtain ⟨h1, h2, h3, h4⟩ := hchain
    have hu := ih t off m.mstop L h4 h3 hlen
    simp only [List.foldr_cons]
    unfold splice at hu ⊢
    rw [List.length_append, List.length_take, List.length_drop]
    omega

/-- Core commutation: removing a later interval `[c, d)` and then an earlier
interval `[a, b)` equals removing the earlier one first and the later one at
indices shifted down by the removed amount. -/
theorem splice_splice (u : List Char) (a b c d : Nat)
    (hab : a ≤ b) (hbc : b ≤ c) (hcd : c ≤ d) (hdu : d ≤ u.length) :
    splice (c - (b - a)) (d - (b - a)) (splice a b u)
      = splice a b (splice c d u) := by
  unfold splice
  have hta : (u.take a).length = a := by rw [List.length_take]; omega
  have htc : (u.take c).length = c := by rw [List.length_take]; omega
  have L1 : List.take (c - (b - a)) (u.take a ++ u.drop b)
      = u.take a ++ (u.drop b).take (c - b) := by
    rw [List.take_append_eq_append_take, hta]
    congr 1
    · rw [List.take_take]
      congr 1
      omega
    · congr 1
      omega
  have L2 : List.drop (d - (b - a)) (u.take a ++ u.drop b)
      = (u.drop b).drop (d - b) := by
    rw [List.drop_append_eq_append_drop, hta]
    rw [List.drop_eq_nil_of_le (by rw [hta]; omega)]
    rw [List.nil_append]
    congr 1
    omega
  have R1 : List.take a (u.take c ++ u.drop d) = u.take a := by
    rw [List.take_append_eq_append_take, htc]
    rw [List.take_take]
    rw [show min a c = a by omega]
    rw [show a - c = 0 by omega, List.take_zero, List.append_nil]
  have R2 : List.drop b (u.take c ++ u.drop d)
      = (u.drop b).take (c - b) ++ u.drop d := by
    rw [List.drop_append_eq_append_drop, htc]
    rw [show b - c = 0 by omega, List.drop_zero]
    congr 1
    rw [List.drop_take]
  rw [L1, L2, R1, R2, List.drop_drop, show b + (d - b) = d by omega,
    List.append_assoc]

/-- Removing an earlier interval first (with the matching offset bump) and
then the chain of later matches is the same as removing the chain first and
the earlier interval afterwards. -/
theorem foldr_splice_swap :
    ∀ (ms : List TMatch) (t : List Char) (off A B e L : Nat),
      ChainOk e L ms → t.length + off = L → off ≤ A → A ≤ B → B ≤ e → e ≤ L →
      ms.foldr
          (fun m u => splice (m.mstart - (off + (B - A)))
            (m.mstop - (off + (B - A))) u)
          (splice (A - off) (B - off) t)
        = splice (A - off) (B - off)
            (ms.foldr (fun m u => splice (m.mstart - off) (m.mstop - off) u) t) := by
  intro ms
  induction ms with
  | nil => intro t off A B e L _ _ _ _ _ _; rfl
  | cons m tl ih =>
    intro t off A B e L hchain hlen hoffA hAB hBe heL
    obtain ⟨h1, h2, h3, h4⟩ := hchain
    simp only [List.foldr_cons]
    rw [ih t off A B m.mstop L h4 hlen hoffA hAB (by omega) h3]
    have hu := foldr_splice_len_ge tl t off m.mstop L h4 h3 hlen
    have hs := splice_splice
      (tl.foldr (fun m u => splice (m.mstart - off) (m.mstop - off) u) t)
      (A - off) (B - off) (m.mstart - off) (m.mstop - off)
      (by omega) (by omega) (by omega) (by omega)
    rw [show m.mstart - (off + (B - A))
          = (m.mstart - off) - ((B - off) - (A - off)) by omega,
        show m.mstop - (off + (B - A))
          = (m.mstop - off) - ((B - off) - (A - off)) by omega]
    exact hs

/-- The source's left-to-right removal loop with its running `offset` equals
the specification-side removal of every match (at original offsets), and
collects exactly the matches' commands, when every match has positive
duration. -/
theorem timerLoop_eq_strip :
    ∀ (ms : List TMatch) (t : List Char) (off L : Nat),
      ChainOk off L ms → t.length + off = L → (∀ m ∈ ms, 0 < m.dur) →
      timerLoop ms t off =
        (ms.foldr (fun m u => splice (m.mstart - off) (m.mstop - off) u) t,
         ms.map (fun m => (m.tid, m.dur))) := by
  intro ms
  induction ms with
  | nil => intro t off L _ _ _; rfl
  | cons m tl ih =>
    intro t off L hchain hlen hpos
    obtain ⟨h1, h2, h3, h4⟩ := hchain
    have hdur : ¬ m.dur = 0 := by
      have := hpos m (List.mem_cons_self m tl)
      omega
    simp only [timerLoop, if_neg hdur]
    have hlen2 : (t.take (m.mstart - off) ++ t.drop (m.mstop - off)).length
        + (off + (m.mstop - m.mstart)) = L := by
      rw [List.length_append, List.length_take, List.length_drop]
      omega
    have hchain2 : ChainOk (off + (m.mstop - m.mstart)) L tl :=
      chainOk_mono (by omega) h4
    have ihr := ih (t.take (m.mstart - off) ++ t.drop (m.mstop - off))
      (off + (m.mstop - m.mstart)) L hchain2 hlen2
      (fun m' hm' => hpos m' (List.mem_cons_of_mem m hm'))
    rw [ihr]
    simp only [List.foldr_cons, List.map_cons, Prod.mk.injEq]
    refine ⟨?_, trivial⟩
    rw [show List.take (m.mstart - off) t ++ List.drop (m.mstop - off) t
          = splice (m.mstart - off) (m.mstop - off) t from rfl]
    exact foldr_splice_swap tl t off m.mstart m.mstop m.mstop L
      h4 hlen h1 (le_of_lt h2) (le_refl m.mstop) h3

/-- C3: for a reply whose pattern matches all carry a positive duration
(one or more well-formed timer markers), `parse_and_trigger_timers` returns
the text with every marker substring removed — surrounding text intact,
offsets recomputed after each deletion — and the command list is exactly the
matches' `(id, duration)` pairs in left-to-right order of appearance. -/
theorem c3_wellformed_markers (s : List Char)
    (hpos : ∀ m ∈ findTimers s, 0 < m.dur) (hne : findTimers s ≠ []) :
    (parse_and_trigger_timers s).1 = stripMatches (findTimers s) s ∧
    (parse_and_trigger_timers s).2
        = (findTimers s).map (fun m => (m.tid, m.dur)) := by
  have hchain : ChainOk 0 s.length (findTimers s) :=
    chainOk_findTimersAux s.length s 0 s.length (by omega)
  have hmain := timerLoop_eq_strip (findTimers s) s 0 s.length hchain
    (by omega) hpos
  unfold parse_and_trigger_timers
  rw [hmain]
  constructor
  · simp [stripMatches, Nat.sub_zero]
  · rfl

/-- C3 witness: a reply carrying two well-formed markers. -/
theorem c3_wellformed_witness :
    (∀ m ∈ findTimers ("Boil [TIMER: 5 egg] then [TIMER: 300 pasta] ok.".toList),
        0 < m.dur) ∧
    findTimers ("Boil [TIMER: 5 egg] then [TIMER: 300 pasta] ok.".toList) ≠ [] ∧
    ((parse_and_trigger_timers
        ("Boil [TIMER: 5 egg] then [TIMER: 300 pasta] ok.".toList)).1
      = stripMatches
          (findTimers ("Boil [TIMER: 5 egg] then [TIMER: 300 pasta] ok.".toList))
          ("Boil [TIMER: 5 egg] then [TIMER: 300 pasta] ok.".toList) ∧
     (parse_and_trigger_timers
        ("Boil [TIMER: 5 egg] then [TIMER: 300 pasta] ok.".toList)).2
      = (findTimers ("Boil [TIMER: 5 egg] then [TIMER: 300 pasta] ok.".toList)).map
          (fun m => (m.tid, m.dur))) :=
  ⟨by decide, by decide,
    c3_wellformed_markers _ (by decide) (by decide)⟩

/-! ## C5/C6: behaviour of the step-update parser on marker decompositions -/

theorem digit_not_space {c : Char} (h : isPyDigit c = true) : isPySpace c = false := by
  have hd : 48 ≤ c.toNat ∧ c.toNat ≤ 57 := by simpa [isPyDigit] using h
  by_contra hs
  have hs' : isPySpace c = true := by
    cases hx : isPySpace c
    · exact absurd hx hs
    · rfl
  simp only [isPySpace, Bool.or_eq_true, beq_iff_eq] at hs'
  rcases hs' with ((((h1 | h1) | h1) | h1) | h1) | h1 <;> rw [h1] at hd <;>
    exact absurd hd (by decide)

theorem takeWhile_append_stop (p : Char → Bool) :
    ∀ (l : List Char) (x : Char) (t : List Char),
      (∀ c ∈ l, p c = true) → p x = false →
      List.takeWhile p (l ++ x :: t) = l := by
  intro l
  induction l with
  | nil =>
    intro x t _ hx
    simp [List.takeWhile_cons, hx]
  | cons c lt ih =>
    intro x t hl hx
    have hc : p c = true := hl c (List.mem_cons_self c lt)
    simp only [List.cons_append, List.takeWhile_cons, hc, if_true]
    rw [ih x t (fun c' hc' => hl c' (List.mem_cons_of_mem c hc')) hx]

/-- A step marker (literal, one space, digits, closing bracket) anchored at
the head of the string matches, with the marker's full length and its parsed
value. -/
theorem stepMatchAt_marker (ds : List Char) (h1 : ds ≠ [])
    (h2 : ∀ c ∈ ds, isPyDigit c = true) (tail : List Char) :
    stepMatchAt (stepMarker ds ++ tail) = some (15 + ds.length, digitsVal ds) := by
  obtain ⟨d, ds', rfl⟩ : ∃ d ds', ds = d :: ds' := by
    cases ds with
    | nil => exact absurd rfl h1
    | cons d ds' => exact ⟨d, ds', rfl⟩
  have hshape : stepMarker (d :: ds') ++ tail
      = stepLit ++ (' ' :: ((d :: ds') ++ ']' :: tail)) := by
    simp [stepMarker, stepLit]
  rw [hshape]
  have hc : (stepLit ++ (' ' :: ((d :: ds') ++ ']' :: tail))).take 13 = stepLit := by
    rw [show (13 : Nat) = stepLit.length from rfl]
    exact List.take_left _ _
  have hdrop : (stepLit ++ (' ' :: ((d :: ds') ++ ']' :: tail))).drop 13
      = ' ' :: ((d :: ds') ++ ']' :: tail) := by
    rw [show (13 : Nat) = stepLit.length from rfl]
    exact List.drop_left _ _
  have hdnotspace : isPySpace d = false :=
    digit_not_space (h2 d (List.mem_cons_self d ds'))
  have hws : List.takeWhile isPySpace (' ' :: ((d :: ds') ++ ']' :: tail))
      = [' '] := by
    simp only [List.takeWhile_cons, List.cons_append]
    rw [show isPySpace ' ' = true from rfl, hdnotspace]
    rfl
  have hds : List.takeWhile isPyDigit ((d :: ds') ++ ']' :: tail) = d :: ds' :=
    takeWhile_append_stop isPyDigit (d :: ds') ']' tail h2 (by decide)
  have hr3 : List.drop (d :: ds').length ((d :: ds') ++ ']' :: tail)
      = ']' :: tail := List.drop_left _ _
  have hrb : isPySpace ']' = false := by decide
  have hws2 : List.takeWhile isPySpace (']' :: tail) = [] := by
    simp [List.takeWhile_cons, hrb]
  unfold stepMatchAt
  rw [if_pos hc]
  simp only
  rw [hdrop, hws]
  simp only [List.length_cons, List.length_nil, Nat.zero_add, List.drop_one,
    List.tail_cons]
  rw [hds, hr3, hws2]
  simp only [List.length_cons, List.length_nil, List.drop_zero, Nat.zero_add]
  rw [if_neg (by omega)]
  rw [if_pos (by rfl)]
  simp only [Option.some.injEq, Prod.mk.injEq]
  exact ⟨by omega, trivial⟩

theorem stepMatchAt_head {c : Char} {t : List Char} {r : Nat × Nat}
    (h : stepMatchAt (c :: t) = some r) : c = '[' := by
  unfold stepMatchAt at h
  split at h
  · next h1 =>
    rw [List.take_cons (by omega)] at h1
    injection h1 with hc htl
  · exact absurd h (by simp)

theorem stepSearchAux_found (fuel : Nat) (s : List Char) (pos len v : Nat)
    (hm : stepMatchAt s = some (len, v)) (hf : s.length ≤ fuel) :
    stepSearchAux fuel s pos = some (pos, len, v) := by
  cases s with
  | nil => rw [show stepMatchAt ([] : List Char) = none by decide] at hm; cases hm
  | cons c t =>
    cases fuel with
    | zero => simp at hf
    | succ fuel => simp only [stepSearchAux, hm]

theorem stepSearchAux_skip :
    ∀ (u rest : List Char) (fuel pos : Nat),
      (∀ c ∈ u, c ≠ '[') → (u ++ rest).length ≤ fuel →
      stepSearchAux fuel (u ++ rest) pos
        = stepSearchAux (fuel - u.length) rest (pos + u.length) := by
  intro u
  induction u with
  | nil =>
    intro rest fuel pos _ _
    simp
  | cons c ut ih =>
    intro rest fuel pos hu hf
    cases fuel with
    | zero =>
      exfalso
      simp [List.length_append] at hf
    | succ fuel =>
      have hm : stepMatchAt (c :: (ut ++ rest)) = none := by
        cases hmm : stepMatchAt (c :: (ut ++ rest)) with
        | none => rfl
        | some r =>
          exact absurd (stepMatchAt_head hmm)
            (hu c (List.mem_cons_self c ut))
      rw [List.cons_append]
      simp only [stepSearchAux, hm]
      rw [ih rest fuel (pos + 1)
        (fun c' hc' => hu c' (List.mem_cons_of_mem c hc'))
        (by simp only [List.length_append, List.length_cons] at hf ⊢; omega)]
      simp only [List.length_cons]
      rw [show fuel + 1 - (ut.length + 1) = fuel - ut.length by omega,
        show pos + (ut.length + 1) = pos + 1 + ut.length by omega]

/-- `search` on `u ++ marker ++ rest` with a bracket-free prefix `u` finds
the marker, at position `u.length`. -/
theorem stepSearch_at (u : List Char) (hu : ∀ c ∈ u, c ≠ '[')
    (ds : List Char) (h1 : ds ≠ []) (h2 : ∀ c ∈ ds, isPyDigit c = true)
    (rest : List Char) :
    stepSearch (u ++ (stepMarker ds ++ rest))
      = some (u.length, 15 + ds.length, digitsVal ds) := by
  unfold stepSearch
  rw [stepSearchAux_skip u (stepMarker ds ++ rest) _ 0 hu (le_refl _)]
  rw [List.length_append, Nat.zero_add]
  rw [show u.length + (stepMarker ds ++ rest).length - u.length
        = (stepMarker ds ++ rest).length by omega]
  exact stepSearchAux_found _ _ _ _ _ (stepMatchAt_marker ds h1 h2 rest)
    (le_refl _)

/-- The rendered length of a step marker. -/
theorem stepMarker_length (ds : List Char) :
    (stepMarker ds).length = 15 + ds.length := by
  simp [stepMarker, stepLit]
  omega

/-- C5 amended: the code's step marker is `[STEP_UPDATE: n]` and `search`
honors the FIRST occurrence in the text, stripping only that occurrence:
for a reply `u ++ marker₁ ++ v ++ marker₂ ++ w` whose prefix `u` contains no
opening bracket, the parser returns `u ++ v ++ marker₂ ++ w` (the second
marker survives in the text) and emits the first marker's value — when it is
positive — as the only step command. -/
theorem c5_first_marker_honored (u v w ds1 ds2 : List Char)
    (hu : ∀ c ∈ u, c ≠ '[')
    (h1 : ds1 ≠ []) (h1d : ∀ c ∈ ds1, isPyDigit c = true)
    (h2 : ds2 ≠ []) (h2d : ∀ c ∈ ds2, isPyDigit c = true) :
    parse_and_trigger_step_update
        (u ++ (stepMarker ds1 ++ (v ++ (stepMarker ds2 ++ w))))
      = (u ++ (v ++ (stepMarker ds2 ++ w)),
         if digitsVal ds1 = 0 then none else some (digitsVal ds1)) := by
  unfold parse_and_trigger_step_update
  rw [stepSearch_at u hu ds1 h1 h1d (v ++ (stepMarker ds2 ++ w))]
  simp only
  have htake : (u ++ (stepMarker ds1 ++ (v ++ (stepMarker ds2 ++ w)))).take u.length
      = u := List.take_left u _
  have hdrop : (u ++ (stepMarker ds1 ++ (v ++ (stepMarker ds2 ++ w)))).drop
      (u.length + (15 + ds1.length)) = v ++ (stepMarker ds2 ++ w) := by
    rw [← stepMarker_length ds1]
    rw [show u.length + (stepMarker ds1).length
          = (u ++ stepMarker ds1).length by simp]
    rw [show u ++ (stepMarker ds1 ++ (v ++ (stepMarker ds2 ++ w)))
          = (u ++ stepMarker ds1) ++ (v ++ (stepMarker ds2 ++ w)) by
        rw [List.append_assoc]]
    exact List.drop_left _ _
  rw [htake, hdrop]

/-- C5 witness: two concrete markers; the first (value 2) is honored, the
second (value 7) stays in the text. -/
theorem c5_first_marker_witness :
    parse_and_trigger_step_update
        ("Go ".toList ++ (stepMarker ['2'] ++
          (" mid ".toList ++ (stepMarker ['7'] ++ " end".toList))))
      = ("Go ".toList ++ (" mid ".toList ++ (stepMarker ['7'] ++ " end".toList)),
         if digitsVal ['2'] = 0 then none else some (digitsVal ['2'])) :=
  c5_first_marker_honored _ _ _ _ _ (by decide) (by decide) (by decide)
    (by decide) (by decide)

/-- C6 amended: the step grammar is 1-indexed — a marker whose digits parse
to a positive `n` yields the command `n`, while a marker carrying 0 is
stripped from the text but yields NO command (negative values cannot match
the digits-only grammar at all). -/
theorem c6_zero_dropped (u w ds : List Char)
    (hu : ∀ c ∈ u, c ≠ '[')
    (h1 : ds ≠ []) (hd : ∀ c ∈ ds, isPyDigit c = true) :
    parse_and_trigger_step_update (u ++ (stepMarker ds ++ w))
      = (u ++ w, if digitsVal ds = 0 then none else some (digitsVal ds)) := by
  unfold parse_and_trigger_step_update
  rw [stepSearch_at u hu ds h1 hd w]
  simp only
  have htake : (u ++ (stepMarker ds ++ w)).take u.length = u :=
    List.take_left u _
  have hdrop : (u ++ (stepMarker ds ++ w)).drop (u.length + (15 + ds.length))
      = w := by
    rw [← stepMarker_length ds]
    rw [show u.length + (stepMarker ds).length
          = (u ++ stepMarker ds).length by simp]
    rw [show u ++ (stepMarker ds ++ w) = (u ++ stepMarker ds) ++ w by
        rw [List.append_assoc]]
    exact List.drop_left _ _
  rw [htake, hdrop]

/-- C6 witness: a zero marker is stripped with no command; a positive marker
yields its value. -/
theorem c6_zero_dropped_witness :
    parse_and_trigger_step_update ("a".toList ++ (stepMarker ['0'] ++ "b".toList))
        = ("a".toList ++ "b".toList,
           if digitsVal ['0'] = 0 then none else some (digitsVal ['0'])) ∧
    parse_and_trigger_step_update ("a".toList ++ (stepMarker ['4'] ++ "b".toList))
        = ("a".toList ++ "b".toList,
           if digitsVal ['4'] = 0 then none else some (digitsVal ['4'])) :=
  ⟨c6_zero_dropped _ _ _ (by decide) (by decide) (by decide),
   c6_zero_dropped _ _ _ (by decide) (by decide) (by decide)⟩
